import Mathlib

/-!
Verification development for the TRAPI model merge/reconciliation engine
(`src/lib.rs` of jdr0887/trapi-model-rs).

The Rust data model is embedded shallowly:

* Rust `String` keys and ids become Lean `String`; the Rust total order
  `String::cmp` (and `partial_cmp`, which on strings is always `Some`)
  is modelled by `cmpOfLt` over the lexicographic linear order on `String`.
* `serde_json::Value` attribute payloads are modelled by the opaque wrapper
  `JsonValue`: the merge engine only ever uses structural equality of values,
  never their shape.
* `f64` scores are modelled by `ℚ`; the source compares scores through
  `OrderedFloat`, whose equality on non-NaN floats is numeric equality.
  (NaN payloads are outside this model.)
* `BTreeMap` and `HashMap` fields become association lists
  `List (String × _)`; `BTreeMap` iteration order is its key order, so the
  lists standing for `node_bindings` and `edge_bindings` are stored in the
  order the Rust iteration would visit them.
* `Vec::sort_by` is modelled by the stable insertion sort `sortBy`; for a
  comparator that is a consistent total preorder this agrees with any stable
  sort, hence with the Rust one. `Vec::dedup` becomes `dedup`, removal of
  adjacent structurally-equal entries.
-/

/-- Opaque stand-in for `serde_json::Value`.  The merge engine never inspects
a value; it only compares whole values for structural equality, which the
wrapped string models. -/
structure JsonValue where
  raw : String
deriving DecidableEq

/-- Rust `Ord::cmp` for any linearly ordered type (used for `String` keys and
for the derived order on `ResourceRoleEnum` ranks). -/
def cmpOfLt {β : Type} [LinearOrder β] (a b : β) : Ordering :=
  if a < b then .lt else if a = b then .eq else .gt

/-- Rust `char` comparison by code point. -/
def charCmp (a b : Char) : Ordering := cmpOfLt a.toNat b.toNat

/-- Lexicographic comparison of character lists. -/
def strCmpAux : List Char → List Char → Ordering
  | [], [] => .eq
  | [], _ :: _ => .lt
  | _ :: _, [] => .gt
  | a :: as, b :: bs => (charCmp a b).then (strCmpAux as bs)

/-- Rust `String::cmp`: lexicographic by code point (identical to the byte
order of the source for the ASCII identifiers this model handles). -/
def strCmp (a b : String) : Ordering := strCmpAux a.data b.data

/-- Stable insertion step: `x` is placed before the first element `y` with
`c x y ≠ .gt`.  For a consistent comparator this is the unique stable-sort
behaviour of Rust `sort_by`. -/
def insertBy {α : Type} (c : α → α → Ordering) (x : α) : List α → List α
  | [] => [x]
  | y :: ys => if c x y = .gt then y :: insertBy c x ys else x :: y :: ys

/-- Stable insertion sort modelling Rust `slice::sort_by`. -/
def sortBy {α : Type} (c : α → α → Ordering) : List α → List α
  | [] => []
  | x :: xs => insertBy c x (sortBy c xs)

/-- Rust `Vec::dedup`: remove adjacent structurally-equal entries. -/
def dedup {α : Type} [DecidableEq α] : List α → List α
  | [] => []
  | [x] => [x]
  | x :: y :: t => if x = y then dedup (y :: t) else x :: dedup (y :: t)

/-- Rust `BTreeMap::get` / `HashMap::get` on the association-list model. -/
def getVal {α : Type} : List (String × α) → String → Option α
  | [], _ => none
  | (k₀, v) :: t, k => if k₀ = k then some v else getVal t k

/-- Rust `BTreeMap::insert` semantics used by `extend`: overwrite the entry
with the same key, or add the entry. -/
def insertEntry {α : Type} : List (String × α) → String × α → List (String × α)
  | [], kv => [kv]
  | (k₀, v₀) :: t, (k, v) => if k₀ = k then (k, v) :: t else (k₀, v₀) :: insertEntry t (k, v)

/-- Rust `BTreeMap::extend`: fold the incoming entries over `insertEntry`,
so an incoming entry overwrites an accumulator entry with the same key. -/
def btreeExtend {α : Type} (left right : List (String × α)) : List (String × α) :=
  right.foldl insertEntry left

/-- Rust `HashMap::entry` based recursive union from `merge_hashmap::hashmap::recurse`:
on a key collision the two values are merged with `m`, otherwise the incoming
entry is inserted. -/
def insertOrMergeEntry {α : Type} (m : α → α → α) :
    List (String × α) → String × α → List (String × α)
  | [], kv => [kv]
  | (k₀, v₀) :: t, (k, v) =>
      if k₀ = k then (k₀, m v₀ v) :: t else (k₀, v₀) :: insertOrMergeEntry m t (k, v)

/-- `merge_hashmap::hashmap::recurse` over the association-list model. -/
def hashmapRecurse {α : Type} (m : α → α → α) (left right : List (String × α)) :
    List (String × α) :=
  right.foldl (insertOrMergeEntry m) left

/-- `merge_hashmap::option::overwrite_none`: take the right value only when the
left is absent. -/
def mergeOptionOverwriteNone {α : Type} : Option α → Option α → Option α
  | none, right => right
  | some v, _ => some v

/-- `merge_hashmap::option::recurse`: merge the payloads when both sides are
present, otherwise fill the absent left. -/
def mergeOptionRecurse {α : Type} (m : α → α → α) : Option α → Option α → Option α
  | some original, some new => some (m original new)
  | none, some new => some new
  | left, none => left

/-- `ResourceRoleEnum` from the source; the Rust `derive(Ord)` order is the
declaration order. -/
inductive ResourceRoleEnum where
  | primaryKnowledgeSource
  | aggregatorKnowledgeSource
  | supportingDataSource
deriving DecidableEq

/-- Declaration-order rank realising the derived `Ord` on `ResourceRoleEnum`. -/
def roleRank : ResourceRoleEnum → Nat
  | .primaryKnowledgeSource => 0
  | .aggregatorKnowledgeSource => 1
  | .supportingDataSource => 2

/-- `Attribute` from the source (the nested `attributes: Option<Vec<Value>>`
payload is a list of opaque values, exactly as in the Rust struct). -/
structure Attribute where
  attribute_type_id : String
  original_attribute_name : Option String
  value : JsonValue
  value_type_id : Option String
  attribute_source : Option String
  value_url : Option String
  description : Option String
  attributes : Option (List JsonValue)
deriving DecidableEq

/-- `Qualifier` from the source. -/
structure Qualifier where
  qualifier_type_id : String
  qualifier_value : String
deriving DecidableEq

/-- `RetrievalSource` from the source. -/
structure RetrievalSource where
  resource_id : String
  resource_role : ResourceRoleEnum
  upstream_resource_ids : Option (List String)
  source_record_urls : Option (List String)
deriving DecidableEq

/-- `NodeBinding` from the source. -/
structure NodeBinding where
  id : String
  query_id : Option String
  attributes : List Attribute
deriving DecidableEq

/-- `EdgeBinding` from the source. -/
structure EdgeBinding where
  id : String
  attributes : List Attribute
deriving DecidableEq

/-- `Analysis` from the source; `score` models the `Option<f64>` field over `ℚ`. -/
structure Analysis where
  resource_id : String
  score : Option ℚ
  scoring_method : Option String
  support_graphs : Option (List String)
  edge_bindings : List (String × List EdgeBinding)
  attributes : Option (List Attribute)
deriving DecidableEq

/-- `Result` from the source (named `TResult` because `Result` is taken in Lean). -/
structure TResult where
  node_bindings : List (String × List NodeBinding)
  analyses : List Analysis
deriving DecidableEq

/-- `Node` from the source. -/
structure Node where
  name : Option String
  categories : List String
  attributes : List Attribute
  is_set : Option Bool
deriving DecidableEq

/-- `Edge` from the source. -/
structure Edge where
  subject : String
  predicate : String
  object : String
  sources : List RetrievalSource
  attributes : Option (List Attribute)
  qualifiers : Option (List Qualifier)
deriving DecidableEq

/-- `KnowledgeGraph` from the source. -/
structure KnowledgeGraph where
  edges : List (String × Edge)
  nodes : List (String × Node)
deriving DecidableEq

/-- `AuxiliaryGraph` from the source. -/
structure AuxiliaryGraph where
  edges : List String
  attributes : List Attribute
deriving DecidableEq

/-- `SetInterpretationEnum` from the source. -/
inductive SetInterpretationEnum where
  | batch
  | all
  | many
deriving DecidableEq

/-- `KnowledgeType` from the source. -/
inductive KnowledgeType where
  | lookup
  | inferred
deriving DecidableEq

/-- `AttributeConstraint` from the source. -/
structure AttributeConstraint where
  id : String
  name : String
  operator : String
  value : JsonValue
  not : Option Bool
  unit_id : Option String
  unit_name : Option String
deriving DecidableEq

/-- `QualifierConstraint` from the source. -/
structure QualifierConstraint where
  qualifier_set : List Qualifier
deriving DecidableEq

/-- `QNode` from the source. -/
structure QNode where
  ids : Option (List String)
  categories : Option (List String)
  set_interpretation : Option SetInterpretationEnum
  member_ids : Option (List String)
  constraints : Option (List AttributeConstraint)
deriving DecidableEq

/-- `QEdge` from the source (the free-form `provided_by: Option<Value>` payload
is an opaque value). -/
structure QEdge where
  predicates : Option (List String)
  subject : String
  object : String
  knowledge_type : Option KnowledgeType
  attribute_constraints : Option (List AttributeConstraint)
  qualifier_constraints : Option (List QualifierConstraint)
  provided_by : Option JsonValue
deriving DecidableEq

/-- `QueryGraph` from the source.  The Merge Engine never reads it
(`#[merge(skip)]` on `Message.query_graph`). -/
structure QueryGraph where
  edges : List (String × QEdge)
  nodes : List (String × QNode)
deriving DecidableEq

/-- `Message` from the source. -/
structure Message where
  results : Option (List TResult)
  query_graph : Option QueryGraph
  knowledge_graph : Option KnowledgeGraph
  auxiliary_graphs : Option (List (String × AuxiliaryGraph))
deriving DecidableEq

/-- The attribute comparator from `merge_attributes` and
`merge_optional_attributes`: lexicographic on
`(attribute_type_id, original_attribute_name)` when both names are present,
`attribute_type_id` alone when both are absent, and `Ordering::Less` for every
mixed-presence pair. -/
def attrCmp (a b : Attribute) : Ordering :=
  match a.original_attribute_name, b.original_attribute_name with
  | some a_oan, some b_oan =>
      (strCmp a.attribute_type_id b.attribute_type_id).then (strCmp a_oan b_oan)
  | none, none => strCmp a.attribute_type_id b.attribute_type_id
  | _, _ => .lt

/-- The qualifier comparator from `merge_edge_qualifiers`:
`qualifier_type_id.partial_cmp(..).unwrap()`, which on strings is total. -/
def qualCmp (a b : Qualifier) : Ordering :=
  strCmp a.qualifier_type_id b.qualifier_type_id

/-- The retrieval-source comparator from `merge_edge_sources`:
`resource_id` compare, then `resource_role` compare. -/
def sourceCmp (a b : RetrievalSource) : Ordering :=
  (strCmp a.resource_id b.resource_id).then
    (cmpOfLt (roleRank a.resource_role) (roleRank b.resource_role))

/-- `merge_attributes` from the source: extend, sort with `attrCmp`, dedup. -/
def merge_attributes (left right : List Attribute) : List Attribute :=
  dedup (sortBy attrCmp (left ++ right))

/-- `merge_optional_attributes` from the source. -/
def merge_optional_attributes :
    Option (List Attribute) → Option (List Attribute) → Option (List Attribute)
  | some original, some new => some (dedup (sortBy attrCmp (original ++ new)))
  | none, some new => some new
  | left, none => left

/-- `merge_edge_qualifiers` from the source (the always-successful `unwrap` of
`partial_cmp` is the total `qualCmp`; `mergeEdgeQualifiersTry` below models the
fallible path explicitly). -/
def merge_edge_qualifiers :
    Option (List Qualifier) → Option (List Qualifier) → Option (List Qualifier)
  | some original, some new => some (dedup (sortBy qualCmp (original ++ new)))
  | none, some new => some new
  | left, none => left

/-- `merge_edge_sources` from the source: extend, sort by
`(resource_id, resource_role)`, dedup under full structural equality. -/
def merge_edge_sources (left right : List RetrievalSource) : List RetrievalSource :=
  dedup (sortBy sourceCmp (left ++ right))

/-- `merge_node_categories` from the source: extend, sort, dedup. -/
def merge_node_categories (left right : List String) : List String :=
  dedup (sortBy strCmp (left ++ right))

/-- `Node` field-wise merge from its `Merge` derive. -/
def Node.merge (left right : Node) : Node where
  name := mergeOptionOverwriteNone left.name right.name
  categories := merge_node_categories left.categories right.categories
  attributes := merge_attributes left.attributes right.attributes
  is_set := mergeOptionOverwriteNone left.is_set right.is_set

/-- `Edge` field-wise merge from its `Merge` derive (the triple is skipped). -/
def Edge.merge (left right : Edge) : Edge :=
  { left with
    sources := merge_edge_sources left.sources right.sources
    attributes := merge_optional_attributes left.attributes right.attributes
    qualifiers := merge_edge_qualifiers left.qualifiers right.qualifiers }

/-- `KnowledgeGraph` field-wise merge: `hashmap::recurse` on both maps. -/
def KnowledgeGraph.merge (left right : KnowledgeGraph) : KnowledgeGraph where
  edges := hashmapRecurse Edge.merge left.edges right.edges
  nodes := hashmapRecurse Node.merge left.nodes right.nodes

/-- The per-`Result` identity rows built inside `merge_message_results`:
for every query-node key, the comma-joined ids of ALL the node bindings for
that key, in map order. -/
def joinIds (nbs : List NodeBinding) : String :=
  String.intercalate "," (nbs.map NodeBinding.id)

/-- `orig_result_ids` / `new_result_ids` from `merge_message_results`. -/
def resultIds (r : TResult) : List (String × String) :=
  r.node_bindings.map fun kv => (kv.1, joinIds kv.2)

/-- The analysis matching test inside `merge_message_results`: both scores must
be present and equal, and the resource ids equal; any absent score fails the
match. -/
def analysisMatches (orig other : Analysis) : Bool :=
  match orig.score, other.score with
  | some orig_score, some other_score =>
      decide (other.resource_id = orig.resource_id) && decide (orig_score = other_score)
  | _, _ => false

/-- The edge-binding extension applied to a matched pair of Analyses inside
`merge_message_results`: for every query-edge key of the accumulator analysis
that the incoming analysis also has, append the incoming list. -/
def mergeMatchedAnalysis (orig other : Analysis) : Analysis :=
  { orig with
    edge_bindings := orig.edge_bindings.map fun kv =>
      match getVal other.edge_bindings kv.1 with
      | some other_ebs => (kv.1, kv.2 ++ other_ebs)
      | none => kv }

/-- The node-binding merge loop inside `merge_message_results`: every
accumulator binding whose id also occurs in the incoming list is extended with
the incoming attributes, then adjacent-deduplicated (no sort). -/
def mergeNodeBindingList (orig new : List NodeBinding) : List NodeBinding :=
  orig.map fun onb =>
    let extended :=
      match new.find? (fun nnb => decide (nnb.id = onb.id)) with
      | some fnb => onb.attributes ++ fnb.attributes
      | none => onb.attributes
    { onb with attributes := dedup extended }

/-- The body applied to an accumulator `Result` and the incoming `Result` it
was matched with, inside `merge_message_results`. -/
def mergeMatchedResult (orig found : TResult) : TResult where
  node_bindings := orig.node_bindings.map fun kv =>
    match getVal found.node_bindings kv.1 with
    | some new_nb => (kv.1, mergeNodeBindingList kv.2 new_nb)
    | none => kv
  analyses := orig.analyses.map fun orig_analysis =>
    match found.analyses.find? (fun fa => analysisMatches orig_analysis fa) with
    | some other_analysis => mergeMatchedAnalysis orig_analysis other_analysis
    | none => orig_analysis

/-- `merge_message_results` from the source: each accumulator `Result` is
matched against the first incoming `Result` with equal identity rows and
merged in place; incoming results that match nothing are dropped, and an
absent accumulator adopts the incoming list wholesale. -/
def merge_message_results :
    Option (List TResult) → Option (List TResult) → Option (List TResult)
  | some original, some new =>
      some (original.map fun orig_result =>
        match new.find? (fun new_result => decide (resultIds orig_result = resultIds new_result)) with
        | some found_new_result => mergeMatchedResult orig_result found_new_result
        | none => orig_result)
  | none, some new => some new
  | left, none => left

/-- `merge_message_auxiliary_graphs` from the source: `BTreeMap::extend`, so an
incoming entry replaces an accumulator entry with the same key wholesale. -/
def merge_message_auxiliary_graphs :
    Option (List (String × AuxiliaryGraph)) → Option (List (String × AuxiliaryGraph)) →
      Option (List (String × AuxiliaryGraph))
  | some original, some new => some (btreeExtend original new)
  | none, some new => some new
  | left, none => left

/-- `Message` field-wise merge from its `Merge` derive. -/
def Message.merge (left right : Message) : Message where
  results := merge_message_results left.results right.results
  query_graph := left.query_graph
  knowledge_graph := mergeOptionRecurse KnowledgeGraph.merge left.knowledge_graph right.knowledge_graph
  auxiliary_graphs := merge_message_auxiliary_graphs left.auxiliary_graphs right.auxiliary_graphs

/-- Modelled from the spec: Rust `str::partial_cmp`, the fallible comparison
that `merge_edge_qualifiers` unwraps.  On strings it always succeeds, which is
what the totality claim about the Canonicalizer rests on. -/
def tryCompareStrings (a b : String) : Option Ordering :=
  some (strCmp a b)

/-- The fallible qualifier comparator exactly as written in the source:
`a.qualifier_type_id.partial_cmp(&b.qualifier_type_id)` before the `unwrap`. -/
def qualifierTryCmp (a b : Qualifier) : Option Ordering :=
  tryCompareStrings a.qualifier_type_id b.qualifier_type_id

/-- Insertion step of the sort when every comparison may fail: a `none`
comparison models the `unwrap` panic. -/
def insertByTry {α : Type} (c : α → α → Option Ordering) (x : α) :
    List α → Option (List α)
  | [] => some [x]
  | y :: ys =>
      match c x y with
      | none => none
      | some .gt => (insertByTry c x ys).map fun t => y :: t
      | some _ => some (x :: y :: ys)

/-- Stable sort when every comparison may fail; `none` models a panic of the
`unwrap` inside the comparator closure. -/
def sortByTry {α : Type} (c : α → α → Option Ordering) : List α → Option (List α)
  | [] => some []
  | x :: xs => (sortByTry c xs).bind (insertByTry c x)

/-- `merge_edge_qualifiers` with the fallible comparator made explicit: the
outer `none` is the panic that the claim says can never happen. -/
def mergeEdgeQualifiersTry :
    Option (List Qualifier) → Option (List Qualifier) → Option (Option (List Qualifier))
  | some original, some new =>
      (sortByTry qualifierTryCmp (original ++ new)).map fun s => some (dedup s)
  | none, some new => some (some new)
  | left, none => some left

/-- Modelled from the spec: the identity tuple the spec claims is used for
`Result` matching, built from only the FIRST bound id per query-node key.
The source instead joins all ids; the two are compared in the C3 theorems. -/
def firstBoundIds (r : TResult) : List (String × Option String) :=
  r.node_bindings.map fun kv => (kv.1, kv.2.head?.map NodeBinding.id)

/-- Canonical form of an attribute list: the sort+dedup merge with an empty
right-hand side, i.e. `merge_attributes(list, [])`. -/
def canonAttributeList (l : List Attribute) : List Attribute :=
  merge_attributes l []

/-- Canonical form of a qualifier list, the qualifier sort+dedup of
`merge_edge_qualifiers` applied to the list alone. -/
def canonQualifierList (l : List Qualifier) : List Qualifier :=
  dedup (sortBy qualCmp l)

/-- Canonical form of a retrieval-source list: `merge_edge_sources(list, [])`. -/
def canonSourceList (l : List RetrievalSource) : List RetrievalSource :=
  merge_edge_sources l []

/-- Canonical form of a category list: `merge_node_categories(list, [])`. -/
def canonCategoryList (l : List String) : List String :=
  merge_node_categories l []

/-- Canonicalized `NodeBinding`. -/
def canonNodeBinding (nb : NodeBinding) : NodeBinding :=
  { nb with attributes := canonAttributeList nb.attributes }

/-- Canonicalized `EdgeBinding`. -/
def canonEdgeBinding (eb : EdgeBinding) : EdgeBinding :=
  { eb with attributes := canonAttributeList eb.attributes }

/-- Canonicalized `Analysis`. -/
def canonAnalysis (a : Analysis) : Analysis :=
  { a with
    edge_bindings := a.edge_bindings.map fun kv => (kv.1, kv.2.map canonEdgeBinding)
    attributes := a.attributes.map canonAttributeList }

/-- Canonicalized `Result`. -/
def canonResult (r : TResult) : TResult where
  node_bindings := r.node_bindings.map fun kv => (kv.1, kv.2.map canonNodeBinding)
  analyses := r.analyses.map canonAnalysis

/-- Canonicalized `Node`. -/
def canonNode (n : Node) : Node :=
  { n with
    categories := canonCategoryList n.categories
    attributes := canonAttributeList n.attributes }

/-- Canonicalized `Edge`. -/
def canonEdge (e : Edge) : Edge :=
  { e with
    sources := canonSourceList e.sources
    attributes := e.attributes.map canonAttributeList
    qualifiers := e.qualifiers.map canonQualifierList }

/-- Canonicalized `AuxiliaryGraph`. -/
def canonAuxiliaryGraph (g : AuxiliaryGraph) : AuxiliaryGraph :=
  { g with attributes := canonAttributeList g.attributes }

/-- Modelled from the spec: the `canon` operation of the associativity claim.
The source has no single canonicalization function; following the words of the
spec, every mergeable collection (attributes, qualifiers, retrieval sources,
categories) is put through the corresponding sort+dedup merge of the source
with an empty right-hand side. -/
def canonMessage (m : Message) : Message where
  results := m.results.map fun rs => rs.map canonResult
  query_graph := m.query_graph
  knowledge_graph := m.knowledge_graph.map fun kg =>
    { edges := kg.edges.map fun kv => (kv.1, canonEdge kv.2)
      nodes := kg.nodes.map fun kv => (kv.1, canonNode kv.2) }
  auxiliary_graphs := m.auxiliary_graphs.map fun gs =>
    gs.map fun kv => (kv.1, canonAuxiliaryGraph kv.2)

/-- Modelled from the spec: one item of per-edge numeric evidence consumed by
the Composite Scorer (`build_evidence_map`); the scorer itself is not under
`src/`, only its contract is specified. -/
structure Evidence where
  resource_id : String
  knowledge_graph_edge_id : String
  log_odds_ratio : Option ℚ
  total_sample_size : Option ℤ
deriving DecidableEq

/-- Modelled from the spec: the entries of an evidence list that carry both a
log-odds ratio and a total sample size; all other entries are excluded from
the composite-score sums without error. -/
def presentEvidence (l : List Evidence) : List (ℚ × ℚ) :=
  l.filterMap fun e =>
    match e.log_odds_ratio, e.total_sample_size with
    | some lor, some n => some (lor, (n : ℚ))
    | _, _ => none

/-- Modelled from the spec: `compute_composite_score`.  With
`weight_i = total_sample_size_i / Σ total_sample_size_j` over the entries with
both fields present, the raw score is `Σ (weight_i * log_odds_ratio_i) / Σ weight_i`;
a degenerate weight sum (the NaN case of the spec) is replaced by the fixed
fallback `0.01`. -/
def compositeRawScore (l : List Evidence) : ℚ :=
  let pres := presentEvidence l
  let total : ℚ := (pres.map Prod.snd).sum
  if total = 0 then 1 / 100
  else ((pres.map fun p => p.2 / total * p.1).sum) / ((pres.map fun p => p.2 / total).sum)

/-- Modelled from the spec: the bounding transform attached to the synthesized
Analysis, `normalized = atan(score) * 2 / π`. -/
noncomputable def normalizedScore (l : List Evidence) : ℝ :=
  Real.arctan ((compositeRawScore l : ℚ) : ℝ) * 2 / Real.pi

/-- A null-like opaque attribute payload used by the concrete examples. -/
def jnull : JsonValue := ⟨"null"⟩

/-- Attribute with type id only, used by the C5/C7 examples. -/
def attrNoName : Attribute := ⟨"biolink:t", none, jnull, none, none, none, none, none⟩

/-- A second nameless attribute with the same type id but a different value. -/
def attrNoName2 : Attribute := ⟨"biolink:t", none, ⟨"2"⟩, none, none, none, none, none⟩

/-- Attribute carrying an `original_attribute_name`. -/
def attrWithName : Attribute := ⟨"biolink:t", some "n", jnull, none, none, none, none, none⟩

/-- Named attribute sorting first under `attrCmp`, for the C7 example. -/
def attrP : Attribute := ⟨"biolink:t1", some "a", jnull, none, none, none, none, none⟩

/-- Named attribute sorting second under `attrCmp`, for the C7 example. -/
def attrQ : Attribute := ⟨"biolink:t2", some "b", jnull, none, none, none, none, none⟩

/-- Two qualifiers sharing a `qualifier_type_id` but with different values. -/
def qual1 : Qualifier := ⟨"biolink:q", "v1"⟩

/-- Second qualifier of the C4 example. -/
def qual2 : Qualifier := ⟨"biolink:q", "v2"⟩

/-- Retrieval source with only `upstream_resource_ids` present. -/
def sourceLeft : RetrievalSource :=
  ⟨"infores:kp", .primaryKnowledgeSource, some ["infores:upstream"], none⟩

/-- Retrieval source with the same uniqueness key as `sourceLeft` but only
`source_record_urls` present. -/
def sourceRight : RetrievalSource :=
  ⟨"infores:kp", .primaryKnowledgeSource, none, some ["https://records"]⟩

/-- A node binding with no attributes, shared by several examples. -/
def nbD : NodeBinding := ⟨"MONDO:1", none, []⟩

/-- Accumulator analysis of the C1 example: score absent. -/
def analysisC1Orig : Analysis := ⟨"infores:r", none, none, none, [("e0", [⟨"a", []⟩])], none⟩

/-- Incoming analysis of the C1 example: same resource, score absent, extra
edge binding under the shared key. -/
def analysisC1New : Analysis := ⟨"infores:r", none, none, none, [("e0", [⟨"b", []⟩])], none⟩

/-- Accumulator result of the C1 example. -/
def resultC1Orig : TResult := ⟨[("n0", [nbD])], [analysisC1Orig]⟩

/-- Incoming result of the C1 example, same identity rows. -/
def resultC1New : TResult := ⟨[("n0", [nbD])], [analysisC1New]⟩

/-- Analyses of the C1 amended witness: both scores present and equal. -/
def analysisScoredA : Analysis := ⟨"infores:r", some 1, none, none, [("e0", [⟨"a", []⟩])], none⟩

/-- Incoming scored analysis of the C1 amended witness. -/
def analysisScoredB : Analysis := ⟨"infores:r", some 1, none, none, [("e0", [⟨"c", []⟩])], none⟩

/-- Scored analysis with an empty `edge_bindings` map, for the C2 middle message. -/
def analysisNoKeys : Analysis := ⟨"infores:r", some 1, none, none, [], none⟩

/-- First message of the C2 associativity example. -/
def messageC2A : Message := ⟨some [⟨[("n0", [nbD])], [analysisScoredA]⟩], none, none, none⟩

/-- Second message of the C2 associativity example: matching result and
analysis, but no edge-binding keys at all. -/
def messageC2B : Message := ⟨some [⟨[("n0", [nbD])], [analysisNoKeys]⟩], none, none, none⟩

/-- Third message of the C2 associativity example: matching result and
analysis carrying the shared key `e0`. -/
def messageC2C : Message := ⟨some [⟨[("n0", [nbD])], [analysisScoredB]⟩], none, none, none⟩

/-- Accumulator result of the C3 example: two bindings (`X`, `Y`) for `n0`. -/
def resultC3Orig : TResult :=
  ⟨[("n0", [⟨"X", none, []⟩, ⟨"Y", none, []⟩])],
    [⟨"infores:r", some 1, none, none, [("e0", [⟨"a", []⟩])], none⟩]⟩

/-- Incoming result agreeing with `resultC3Orig` only on the first binding. -/
def resultC3Diff : TResult :=
  ⟨[("n0", [⟨"X", none, []⟩, ⟨"Z", none, []⟩])],
    [⟨"infores:r", some 1, none, none, [("e0", [⟨"b", []⟩])], none⟩]⟩

/-- Incoming result agreeing with `resultC3Orig` on the full binding list. -/
def resultC3Same : TResult :=
  ⟨[("n0", [⟨"X", none, []⟩, ⟨"Y", none, []⟩])],
    [⟨"infores:r", some 1, none, none, [("e0", [⟨"b", []⟩])], none⟩]⟩

/-- The merge of `resultC3Orig` with `resultC3Same`. -/
def resultC3Merged : TResult :=
  ⟨[("n0", [⟨"X", none, []⟩, ⟨"Y", none, []⟩])],
    [⟨"infores:r", some 1, none, none, [("e0", [⟨"a", []⟩, ⟨"b", []⟩])], none⟩]⟩

/-- Accumulator result of the C7 example: one binding carrying `attrP`. -/
def resultC7Orig : TResult := ⟨[("n0", [⟨"MONDO:1", none, [attrP]⟩])], []⟩

/-- Incoming result of the C7 example: same binding id carrying `[attrQ, attrP]`. -/
def resultC7New : TResult := ⟨[("n0", [⟨"MONDO:1", none, [attrQ, attrP]⟩])], []⟩

/-- What the source produces for the C7 example: appended and only
adjacent-deduplicated, so the duplicate of `attrP` survives out of order. -/
def resultC7Merged : TResult := ⟨[("n0", [⟨"MONDO:1", none, [attrP, attrQ, attrP]⟩])], []⟩

/-- Auxiliary graph stored in the accumulator of the C10 witness. -/
def auxG1 : AuxiliaryGraph := ⟨["x1"], []⟩

/-- Auxiliary graph stored in the incoming message of the C10 witness. -/
def auxG2 : AuxiliaryGraph := ⟨["x2"], []⟩

/-- Evidence entry `(OR = 1.0, N = 100)` of the spec's worked example. -/
def evidenceOne : Evidence := ⟨"infores:kp1", "e1", some 1, some 100⟩

/-- Evidence entry `(OR = 2.0, N = 300)` of the spec's worked example. -/
def evidenceTwo : Evidence := ⟨"infores:kp2", "e2", some 2, some 300⟩

/-- The spec's worked evidence list. -/
def exampleEvidence : List Evidence := [evidenceOne, evidenceTwo]

/-- Evidence entry missing its sample size, excluded from the sums. -/
def evidenceNoSize : Evidence := ⟨"infores:kp3", "e3", some 5, none⟩

theorem cmpOfLt_gt_iff {β : Type} [LinearOrder β] {a b : β} : cmpOfLt a b = .gt ↔ b < a := by
  unfold cmpOfLt
  rcases lt_trichotomy a b with h | h | h
  · simp [h, lt_asymm h]
  · subst h; simp [lt_irrefl]
  · simp [lt_asymm h, ne_of_gt h, h]

theorem cmpOfLt_eq_iff {β : Type} [LinearOrder β] {a b : β} : cmpOfLt a b = .eq ↔ a = b := by
  unfold cmpOfLt
  rcases lt_trichotomy a b with h | h | h
  · simp [h, ne_of_lt h]
  · subst h; simp [lt_irrefl]
  · simp [lt_asymm h, ne_of_gt h]

theorem cmpOfLt_gt_rev {β : Type} [LinearOrder β] {a b : β} (h : cmpOfLt a b = .gt) :
    cmpOfLt b a = .lt := by
  unfold cmpOfLt
  simp [cmpOfLt_gt_iff.mp h]

theorem then_gt_iff {o p : Ordering} : o.then p = .gt ↔ o = .gt ∨ (o = .eq ∧ p = .gt) := by
  cases o <;> simp [Ordering.then]

theorem then_eq_iff {o p : Ordering} : o.then p = .eq ↔ o = .eq ∧ p = .eq := by
  cases o <;> simp [Ordering.then]

theorem charCmp_gt_rev {a b : Char} (h : charCmp a b = .gt) : charCmp b a = .lt :=
  cmpOfLt_gt_rev h

theorem charCmp_eq_symm {a b : Char} (h : charCmp a b = .eq) : charCmp b a = .eq :=
  cmpOfLt_eq_iff.mpr (cmpOfLt_eq_iff.mp h).symm

theorem strCmpAux_gt_rev : ∀ {x y : List Char}, strCmpAux x y = .gt → strCmpAux y x = .lt := by
  intro x
  induction x with
  | nil => intro y h; cases y <;> exact absurd h (by simp [strCmpAux])
  | cons a as ih =>
      intro y h
      cases y with
      | nil => rfl
      | cons b bs =>
          simp only [strCmpAux] at h ⊢
          rcases then_gt_iff.mp h with h1 | ⟨h1, h2⟩
          · rw [charCmp_gt_rev h1]; rfl
          · rw [charCmp_eq_symm h1]
            exact ih h2

theorem strCmpAux_eq_symm : ∀ {x y : List Char}, strCmpAux x y = .eq → strCmpAux y x = .eq := by
  intro x
  induction x with
  | nil => intro y h; cases y <;> first | rfl | exact absurd h (by simp [strCmpAux])
  | cons a as ih =>
      intro y h
      cases y with
      | nil => exact absurd h (by simp [strCmpAux])
      | cons b bs =>
          simp only [strCmpAux] at h ⊢
          obtain ⟨h1, h2⟩ := then_eq_iff.mp h
          rw [charCmp_eq_symm h1]
          exact then_eq_iff.mpr ⟨rfl, ih h2⟩

theorem strCmp_gt_rev {a b : String} (h : strCmp a b = .gt) : strCmp b a = .lt :=
  strCmpAux_gt_rev h

theorem strCmp_eq_symm {a b : String} (h : strCmp a b = .eq) : strCmp b a = .eq :=
  strCmpAux_eq_symm h

theorem attrCmp_gt_rev {a b : Attribute} (h : attrCmp a b = .gt) : attrCmp b a = .lt := by
  obtain ⟨ta, oa, va1, va2, va3, va4, va5, va6⟩ := a
  obtain ⟨tb, ob, wb1, wb2, wb3, wb4, wb5, wb6⟩ := b
  cases oa <;> cases ob <;> simp only [attrCmp] at h ⊢
  · exact strCmp_gt_rev h
  · rcases then_gt_iff.mp h with h1 | ⟨h1, h2⟩
    · rw [strCmp_gt_rev h1]; rfl
    · rw [strCmp_eq_symm h1]
      exact strCmp_gt_rev h2

theorem qualCmp_gt_rev {a b : Qualifier} (h : qualCmp a b = .gt) : qualCmp b a = .lt :=
  strCmp_gt_rev h

theorem sourceCmp_gt_rev {a b : RetrievalSource} (h : sourceCmp a b = .gt) :
    sourceCmp b a = .lt := by
  unfold sourceCmp at h ⊢
  rcases then_gt_iff.mp h with h1 | ⟨h1, h2⟩
  · rw [strCmp_gt_rev h1]; rfl
  · rw [strCmp_eq_symm h1]
    exact cmpOfLt_gt_rev h2

theorem head?_insertBy {α : Type} (c : α → α → Ordering) (x : α) (l : List α) :
    (insertBy c x l).head? = some x ∨ (insertBy c x l).head? = l.head? := by
  cases l with
  | nil => left; rfl
  | cons y ys =>
      unfold insertBy
      by_cases h : c x y = .gt
      · right; simp [h]
      · left; simp [h]

theorem chain_insertBy {α : Type} {c : α → α → Ordering}
    (hrev : ∀ x y, c x y = .gt → c y x = .lt) (x : α) :
    ∀ {l : List α}, List.Chain' (fun a b => c a b ≠ .gt) l →
      List.Chain' (fun a b => c a b ≠ .gt) (insertBy c x l) := by
  intro l
  induction l with
  | nil => intro _; simp [insertBy]
  | cons y ys ih =>
      intro h2
      unfold insertBy
      by_cases h : c x y = .gt
      · simp only [if_pos h]
        rw [List.chain'_cons']
        refine ⟨?_, ih (List.chain'_cons'.mp h2).2⟩
        intro z hz
        rcases head?_insertBy c x ys with hh | hh
        · rw [hh] at hz
          simp only [Option.mem_def, Option.some.injEq] at hz
          subst hz
          rw [hrev x y h]
          simp
        · rw [hh] at hz
          exact (List.chain'_cons'.mp h2).1 z hz
      · simp only [if_neg h]
        exact List.chain'_cons.mpr ⟨h, h2⟩

theorem chain_sortBy {α : Type} {c : α → α → Ordering}
    (hrev : ∀ x y, c x y = .gt → c y x = .lt) :
    ∀ l : List α, List.Chain' (fun a b => c a b ≠ .gt) (sortBy c l) := by
  intro l
  induction l with
  | nil => simp [sortBy]
  | cons x xs ih => exact chain_insertBy hrev x ih

theorem sortBy_of_chain {α : Type} {c : α → α → Ordering} :
    ∀ {l : List α}, List.Chain' (fun a b => c a b ≠ .gt) l → sortBy c l = l := by
  intro l
  induction l with
  | nil => intro _; rfl
  | cons x xs ih =>
      intro h
      unfold sortBy
      rw [ih h.tail]
      cases xs with
      | nil => rfl
      | cons y ys =>
          have hxy : c x y ≠ .gt := (List.chain'_cons.mp h).1
          unfold insertBy
          simp [hxy]

theorem dedup_cons_head {α : Type} [DecidableEq α] :
    ∀ (l : List α) (a : α), ∃ t, dedup (a :: l) = a :: t := by
  intro l
  induction l with
  | nil => intro a; exact ⟨[], rfl⟩
  | cons b t ih =>
      intro a
      by_cases h : a = b
      · obtain ⟨u, hu⟩ := ih b
        refine ⟨u, ?_⟩
        rw [show dedup (a :: b :: t) = dedup (b :: t) by simp [dedup, h], hu, h]
      · exact ⟨dedup (b :: t), by simp [dedup, h]⟩

theorem chain_dedup {α : Type} [DecidableEq α] {R : α → α → Prop} :
    ∀ {l : List α}, List.Chain' R l → List.Chain' R (dedup l) := by
  intro l
  induction l with
  | nil => intro _; exact List.chain'_nil
  | cons x xs ih =>
      intro h
      cases xs with
      | nil => simp [dedup]
      | cons y t =>
          by_cases hxy : x = y
          · rw [show dedup (x :: y :: t) = dedup (y :: t) by simp [dedup, hxy]]
            exact ih h.tail
          · rw [show dedup (x :: y :: t) = x :: dedup (y :: t) by simp [dedup, hxy]]
            obtain ⟨u, hu⟩ := dedup_cons_head t y
            rw [hu]
            refine List.chain'_cons.mpr ⟨(List.chain'_cons.mp h).1, ?_⟩
            rw [← hu]
            exact ih h.tail

theorem chain_ne_dedup {α : Type} [DecidableEq α] :
    ∀ l : List α, List.Chain' (fun a b => a ≠ b) (dedup l) := by
  intro l
  induction l with
  | nil => exact List.chain'_nil
  | cons x xs ih =>
      cases xs with
      | nil => simp [dedup]
      | cons y t =>
          by_cases hxy : x = y
          · rw [show dedup (x :: y :: t) = dedup (y :: t) by simp [dedup, hxy]]
            exact ih
          · rw [show dedup (x :: y :: t) = x :: dedup (y :: t) by simp [dedup, hxy]]
            obtain ⟨u, hu⟩ := dedup_cons_head t y
            rw [hu]
            refine List.chain'_cons.mpr ⟨hxy, ?_⟩
            rw [← hu]
            exact ih

theorem dedup_of_chain_ne {α : Type} [DecidableEq α] :
    ∀ {l : List α}, List.Chain' (fun a b => a ≠ b) l → dedup l = l := by
  intro l
  induction l with
  | nil => intro _; rfl
  | cons x xs ih =>
      intro h
      cases xs with
      | nil => rfl
      | cons y t =>
          have hxy : x ≠ y := (List.chain'_cons.mp h).1
          rw [show dedup (x :: y :: t) = x :: dedup (y :: t) by simp [dedup, hxy]]
          rw [ih h.tail]

theorem sortDedup_idem {α : Type} [DecidableEq α] {c : α → α → Ordering}
    (hrev : ∀ x y, c x y = .gt → c y x = .lt) (l : List α) :
    dedup (sortBy c (dedup (sortBy c l))) = dedup (sortBy c l) := by
  have h1 := chain_sortBy hrev l
  have h2 := chain_dedup h1
  rw [sortBy_of_chain h2, dedup_of_chain_ne (chain_ne_dedup _)]

theorem getVal_extendList (g : List (String × List EdgeBinding)) :
    ∀ (l : List (String × List EdgeBinding)) (k : String) (vo vn : List EdgeBinding),
      getVal l k = some vo → getVal g k = some vn →
      getVal (l.map fun kv =>
        match getVal g kv.1 with
        | some other_ebs => (kv.1, kv.2 ++ other_ebs)
        | none => kv) k = some (vo ++ vn) := by
  intro l
  induction l with
  | nil => intro k vo vn h _; exact absurd h (by simp [getVal])
  | cons kv t ih =>
      intro k vo vn ho hn
      obtain ⟨k0, v0⟩ := kv
      simp only [List.map_cons]
      by_cases h : k0 = k
      · subst h
        rw [hn]
        simp [getVal] at ho
        simp [getVal, ho]
      · simp only [getVal, if_neg h] at ho
        cases hg : getVal g k0 <;> simp [getVal, h] <;> exact ih k vo vn ho hn

theorem getVal_insertEntry {α : Type} (k : String) (v : α) (k2 : String) :
    ∀ l : List (String × α),
      getVal (insertEntry l (k, v)) k2 = if k = k2 then some v else getVal l k2 := by
  intro l
  induction l with
  | nil => simp [insertEntry, getVal]
  | cons kv t ih =>
      obtain ⟨k0, v0⟩ := kv
      by_cases h : k0 = k
      · subst h
        by_cases hk : k0 = k2 <;> simp [insertEntry, getVal, hk]
      · by_cases hk0 : k0 = k2
        · subst hk0
          have hk : ¬k = k0 := fun hh => h hh.symm
          simp [insertEntry, getVal, h, hk]
        · simp [insertEntry, getVal, h, hk0, ih]

theorem getVal_btreeExtend_not_mem {α : Type} :
    ∀ (r l : List (String × α)) (k : String), (∀ p ∈ r, p.1 ≠ k) →
      getVal (btreeExtend l r) k = getVal l k := by
  intro r
  induction r with
  | nil => intro l k _; rfl
  | cons kv t ih =>
      intro l k hnm
      obtain ⟨k0, v0⟩ := kv
      have h0 : k0 ≠ k := hnm (k0, v0) (List.mem_cons_self _ _)
      have ht : ∀ p ∈ t, p.1 ≠ k := fun p hp => hnm p (List.mem_cons_of_mem _ hp)
      show getVal (btreeExtend (insertEntry l (k0, v0)) t) k = getVal l k
      rw [ih (insertEntry l (k0, v0)) k ht, getVal_insertEntry, if_neg h0]

theorem getVal_btreeExtend {α : Type} :
    ∀ (r l : List (String × α)) (k : String) (v : α),
      getVal r k = some v → (r.map Prod.fst).Nodup →
      getVal (btreeExtend l r) k = some v := by
  intro r
  induction r with
  | nil => intro l k v h _; exact absurd h (by simp [getVal])
  | cons kv t ih =>
      intro l k v hv hnd
      obtain ⟨k0, v0⟩ := kv
      simp only [List.map_cons, List.nodup_cons] at hnd
      by_cases h : k0 = k
      · subst h
        simp [getVal] at hv
        have ht : ∀ p ∈ t, p.1 ≠ k0 := by
          intro p hp hpk
          exact hnd.1 (hpk ▸ List.mem_map_of_mem Prod.fst hp)
        show getVal (btreeExtend (insertEntry l (k0, v0)) t) k0 = some v
        rw [getVal_btreeExtend_not_mem t _ k0 ht, getVal_insertEntry]
        simp [hv]
      · simp only [getVal, if_neg h] at hv
        exact ih (insertEntry l (k0, v0)) k v hv hnd.2

theorem insertByTry_eq (x : Qualifier) :
    ∀ l : List Qualifier, insertByTry qualifierTryCmp x l = some (insertBy qualCmp x l) := by
  intro l
  induction l with
  | nil => rfl
  | cons y ys ih =>
      show (match qualifierTryCmp x y with
        | none => none
        | some .gt => (insertByTry qualifierTryCmp x ys).map fun t => y :: t
        | some _ => some (x :: y :: ys)) = some (insertBy qualCmp x (y :: ys))
      rw [show qualifierTryCmp x y = some (qualCmp x y) from rfl]
      unfold insertBy
      cases h : qualCmp x y <;> simp [h, ih]

theorem sortByTry_eq :
    ∀ l : List Qualifier, sortByTry qualifierTryCmp l = some (sortBy qualCmp l) := by
  intro l
  induction l with
  | nil => rfl
  | cons x xs ih =>
      show (sortByTry qualifierTryCmp xs).bind (insertByTry qualifierTryCmp x) =
        some (sortBy qualCmp (x :: xs))
      rw [ih]
      show insertByTry qualifierTryCmp x (sortBy qualCmp xs) = some (sortBy qualCmp (x :: xs))
      rw [insertByTry_eq]
      rfl

/-- Claim C1, counterexample.  The claim says two Analyses with equal
`resource_id` and both scores `None` match, and that on a match the incoming
edge-binding lists are appended.  In the source the matching test returns
`false` whenever either score is absent, so the two none-score analyses below
share a resource id and the key `e0`, yet the merge leaves the accumulator
result completely unchanged and appends nothing. -/
theorem none_score_analyses_never_match :
    analysisC1Orig.resource_id = analysisC1New.resource_id
  ∧ analysisC1Orig.score = none ∧ analysisC1New.score = none
  ∧ getVal analysisC1Orig.edge_bindings "e0" = some [⟨"a", []⟩]
  ∧ getVal analysisC1New.edge_bindings "e0" = some [⟨"b", []⟩]
  ∧ merge_message_results (some [resultC1Orig]) (some [resultC1New]) = some [resultC1Orig] :=
  ⟨rfl, rfl, rfl, by decide, by decide, by decide⟩

/-- Claim C1, amended.  An accumulator Analysis and an incoming Analysis match
exactly when their `resource_id` are equal and BOTH scores are present and
numerically equal; two absent scores never match.  On such a match, for every
query-edge key present in both Analyses, the incoming EdgeBinding list is
appended onto the accumulator list for that key. -/
theorem analysis_match_requires_present_scores (orig other : Analysis) :
    (analysisMatches orig other = true ↔
      other.resource_id = orig.resource_id ∧ ∃ s, orig.score = some s ∧ other.score = some s)
  ∧ ∀ (k : String) (vo vn : List EdgeBinding),
      getVal orig.edge_bindings k = some vo → getVal other.edge_bindings k = some vn →
      getVal (mergeMatchedAnalysis orig other).edge_bindings k = some (vo ++ vn) := by
  constructor
  · obtain ⟨rid1, sc1, sm1, sg1, eb1, attr1⟩ := orig
    obtain ⟨rid2, sc2, sm2, sg2, eb2, attr2⟩ := other
    cases sc1 with
    | none => simp [analysisMatches]
    | some s1 =>
        cases sc2 with
        | none => simp [analysisMatches]
        | some s2 =>
            simp only [analysisMatches, Bool.and_eq_true, decide_eq_true_eq, Option.some.injEq]
            constructor
            · rintro ⟨h1, h2⟩
              exact ⟨h1, s1, rfl, h2.symm⟩
            · rintro ⟨h1, s, hs1, hs2⟩
              exact ⟨h1, hs1.trans hs2.symm⟩
  · intro k vo vn ho hn
    exact getVal_extendList other.edge_bindings orig.edge_bindings k vo vn ho hn

/-- Claim C1, witness for the amended theorem at concrete scored analyses. -/
theorem analysis_match_requires_present_scores_witness :
    analysisMatches analysisScoredA analysisScoredB = true
  ∧ getVal (mergeMatchedAnalysis analysisScoredA analysisScoredB).edge_bindings "e0" =
      some [⟨"a", []⟩, ⟨"c", []⟩] :=
  ⟨(analysis_match_requires_present_scores analysisScoredA analysisScoredB).1.mpr
      ⟨rfl, 1, rfl, rfl⟩,
   (analysis_match_requires_present_scores analysisScoredA analysisScoredB).2 "e0"
      [⟨"a", []⟩] [⟨"c", []⟩] (by decide) (by decide)⟩

/-- Claim C2, refutation at a concrete input.  Merging three Messages that
contain one matching Result each is not associative up to canonicalization:
when the middle Message's Analysis has no edge-binding keys, the key-driven
append loop loses the third Message's bindings in the right-associated fold
(the accumulator keeps only `e0 -> [a]`) but keeps them in the
left-associated fold (`e0 -> [a, c]`). -/
theorem merge_not_associative :
    canonMessage (Message.merge (Message.merge messageC2A messageC2B) messageC2C) ≠
      canonMessage (Message.merge messageC2A (Message.merge messageC2B messageC2C)) := by
  decide

/-- Claim C3, counterexample.  Two Results that agree on the first bound id of
every query-node key but differ in the second binding are NOT matched by the
source (the identity joins ALL binding ids), so their evidence is not merged;
the same Results with identical full binding lists are matched and merged. -/
theorem second_binding_id_affects_matching :
    firstBoundIds resultC3Orig = firstBoundIds resultC3Diff
  ∧ merge_message_results (some [resultC3Orig]) (some [resultC3Diff]) = some [resultC3Orig]
  ∧ merge_message_results (some [resultC3Orig]) (some [resultC3Same]) = some [resultC3Merged]
  ∧ resultC3Merged ≠ resultC3Orig :=
  ⟨by decide, by decide, by decide, by decide⟩

/-- Claim C3, amended.  A Result is matched with an incoming Result exactly
when their full identity rows are equal, where each row joins the ids of ALL
the NodeBindings of a query-node key; entries beyond the first do take part
in the identity. -/
theorem result_identity_joins_all_binding_ids (r1 r2 : TResult) :
    merge_message_results (some [r1]) (some [r2]) =
      some [if resultIds r1 = resultIds r2 then mergeMatchedResult r1 r2 else r1] := by
  by_cases h : resultIds r1 = resultIds r2 <;>
    simp [merge_message_results, List.find?, h]

/-- Claim C4, counterexample.  `[qual1, qual2]` is a canonicalized qualifier
list (running the Canonicalizer on it returns it unchanged), and the permuted
list `[qual2, qual1]` also canonicalizes to itself: the two share the sort key
`qualifier_type_id`, so the stable sort keeps the arrival order, and the two
permutations yield different canonical outputs. -/
theorem canonicalization_not_permutation_invariant :
    merge_edge_qualifiers (some [qual1, qual2]) (some []) = some [qual1, qual2]
  ∧ merge_edge_qualifiers (some [qual2, qual1]) (some []) = some [qual2, qual1]
  ∧ List.Perm [qual2, qual1] [qual1, qual2]
  ∧ [qual2, qual1] ≠ [qual1, qual2] :=
  ⟨by decide, by decide, by decide, by decide⟩

/-- Claim C4, amended.  Re-running the Canonicalizer on its own output is the
identity for attribute, retrieval-source, and qualifier lists; permutation
invariance fails whenever distinct entries share a sort key, so only this
fixpoint form of idempotence holds. -/
theorem canonicalizer_rerun_fixpoint :
    (∀ l : List Attribute, merge_attributes (merge_attributes l []) [] = merge_attributes l [])
  ∧ (∀ l : List RetrievalSource,
      merge_edge_sources (merge_edge_sources l []) [] = merge_edge_sources l [])
  ∧ ∀ l : List Qualifier,
      merge_edge_qualifiers (merge_edge_qualifiers (some l) (some [])) (some []) =
        merge_edge_qualifiers (some l) (some []) := by
  refine ⟨fun l => ?_, fun l => ?_, fun l => ?_⟩
  · simp only [merge_attributes, List.append_nil]
    exact sortDedup_idem (fun x y h => attrCmp_gt_rev h) l
  · simp only [merge_edge_sources, List.append_nil]
    exact sortDedup_idem (fun x y h => sourceCmp_gt_rev h) l
  · simp only [merge_edge_qualifiers, List.append_nil, Option.some.injEq]
    exact sortDedup_idem (fun x y h => qualCmp_gt_rev h) l

/-- Claim C5, counterexample.  The attribute comparator is not a total order:
a nameless attribute compares `Less` against a named one IN BOTH DIRECTIONS
(so present-name does not sort first), and two nameless attributes with equal
type ids compare `Equal`, not `Less`. -/
theorem attribute_comparator_not_total :
    attrCmp attrNoName attrWithName = .lt
  ∧ attrCmp attrWithName attrNoName = .lt
  ∧ attrCmp attrNoName attrNoName2 = .eq
  ∧ attrNoName ≠ attrNoName2 :=
  ⟨by decide, by decide, by decide, by decide⟩

/-- Claim C5, amended.  The comparator returns `Less` for every pair of
attributes with mixed presence of `original_attribute_name`, in either
direction, hence it is not antisymmetric and not a total order; a pair of
attributes both missing the name compares by `attribute_type_id` alone
(`Equal` when the type ids coincide). -/
theorem attribute_comparator_shape (a b : Attribute) :
    (∀ s, a.original_attribute_name = some s → b.original_attribute_name = none →
      attrCmp a b = .lt ∧ attrCmp b a = .lt)
  ∧ (a.original_attribute_name = none → b.original_attribute_name = none →
      attrCmp a b = strCmp a.attribute_type_id b.attribute_type_id) := by
  constructor
  · intro s hs hn
    constructor
    · unfold attrCmp; rw [hs, hn]
    · unfold attrCmp; rw [hs, hn]
  · intro ha hb
    unfold attrCmp
    rw [ha, hb]

/-- Claim C5, witness for the amended theorem at concrete attributes. -/
theorem attribute_comparator_shape_witness :
    (attrCmp attrWithName attrNoName = .lt ∧ attrCmp attrNoName attrWithName = .lt)
  ∧ attrCmp attrNoName attrNoName2 =
      strCmp attrNoName.attribute_type_id attrNoName2.attribute_type_id :=
  ⟨(attribute_comparator_shape attrWithName attrNoName).1 "n" rfl rfl,
   (attribute_comparator_shape attrNoName attrNoName2).2 rfl rfl⟩

/-- Claim C6, counterexample.  Two retrieval sources with the same uniqueness
key `(resource_id, resource_role)` but different optional fields are NOT
unified: `merge_edge_sources` keeps both entries unchanged, and no
fill-if-absent transfer between them happens. -/
theorem equal_key_sources_not_unified :
    sourceLeft.resource_id = sourceRight.resource_id
  ∧ sourceLeft.resource_role = sourceRight.resource_role
  ∧ sourceLeft ≠ sourceRight
  ∧ merge_edge_sources [sourceLeft] [sourceRight] = [sourceLeft, sourceRight] :=
  ⟨rfl, rfl, by decide, by decide⟩

/-- Claim C6, amended.  On merge, retrieval sources are collapsed only by the
full-structural-equality dedup: two sources whose comparator does not order
the second strictly first and which are not structurally identical both
survive, each with its optional fields untouched. -/
theorem sources_dedup_only_on_full_equality (s1 s2 : RetrievalSource)
    (hkey : sourceCmp s1 s2 ≠ .gt) (hne : s1 ≠ s2) :
    merge_edge_sources [s1] [s2] = [s1, s2] := by
  simp [merge_edge_sources, sortBy, insertBy, dedup, hkey, hne]

/-- Claim C6, witness for the amended theorem at the concrete equal-key pair. -/
theorem sources_dedup_only_on_full_equality_witness :
    merge_edge_sources [sourceLeft] [sourceRight] = [sourceLeft, sourceRight] :=
  sources_dedup_only_on_full_equality sourceLeft sourceRight (by decide) (by decide)

/-- Claim C7, counterexample.  When matched Results merge their NodeBindings,
the attribute lists are appended and only adjacent-deduplicated, never
sorted: the merge below produces `[attrP, attrQ, attrP]`, which still contains
a duplicate and differs from the canonical (sorted, deduplicated) form
`[attrP, attrQ]`, so arrival order does affect the final list. -/
theorem node_binding_attributes_not_canonicalized :
    merge_message_results (some [resultC7Orig]) (some [resultC7New]) = some [resultC7Merged]
  ∧ canonAttributeList [attrP, attrQ, attrP] = [attrP, attrQ]
  ∧ [attrP, attrQ, attrP] ≠ [attrP, attrQ] :=
  ⟨by decide, by decide, by decide⟩

/-- Claim C7, amended.  For each accumulator NodeBinding whose id equals an
incoming NodeBinding id, the incoming attributes are appended and the
resulting list is only adjacent-deduplicated (`Vec::dedup`), with no sort. -/
theorem node_binding_attrs_append_dedup_only (onb fnb : NodeBinding) (h : fnb.id = onb.id) :
    mergeNodeBindingList [onb] [fnb] =
      [{ onb with attributes := dedup (onb.attributes ++ fnb.attributes) }] := by
  simp [mergeNodeBindingList, List.find?, h]

/-- Claim C7, witness for the amended theorem at concrete bindings. -/
theorem node_binding_attrs_append_dedup_only_witness :
    mergeNodeBindingList [⟨"MONDO:1", none, [attrP]⟩] [⟨"MONDO:1", none, [attrQ, attrP]⟩] =
      [⟨"MONDO:1", none, dedup ([attrP] ++ [attrQ, attrP])⟩] :=
  node_binding_attrs_append_dedup_only ⟨"MONDO:1", none, [attrP]⟩ ⟨"MONDO:1", none, [attrQ, attrP]⟩ rfl

/-- Claim C8.  The only fallible operation of the Merge Engine and
Canonicalizer, the `unwrap` of `partial_cmp` inside the qualifier comparator,
can never fail: the explicitly fallible model of `merge_edge_qualifiers`
returns a value (never the panic marker `none`) on every input, and that value
is the one the total merge computes. -/
theorem qualifier_unwrap_never_panics (left right : Option (List Qualifier)) :
    mergeEdgeQualifiersTry left right = some (merge_edge_qualifiers left right) := by
  cases left <;> cases right <;>
    simp [mergeEdgeQualifiersTry, merge_edge_qualifiers, sortByTry_eq]

/-- Claim C10.  When both merged Messages carry an `auxiliary_graphs` entry
for the same key, the merged map holds the incoming Message's AuxiliaryGraph
for that key: `BTreeMap::extend` overwrites the accumulator entry wholesale,
independently of the accumulator value. -/
theorem aux_graph_merge_right_wins (l r : List (String × AuxiliaryGraph)) (k : String)
    (vL vR : AuxiliaryGraph) (hnd : (r.map Prod.fst).Nodup)
    (_hL : getVal l k = some vL) (hR : getVal r k = some vR) :
    merge_message_auxiliary_graphs (some l) (some r) = some (btreeExtend l r)
  ∧ getVal (btreeExtend l r) k = some vR :=
  ⟨rfl, getVal_btreeExtend r l k vR hR hnd⟩

/-- Claim C10, witness at a concrete one-entry collision. -/
theorem aux_graph_merge_right_wins_witness :
    getVal (btreeExtend [("g", auxG1)] [("g", auxG2)]) "g" = some auxG2 :=
  (aux_graph_merge_right_wins [("g", auxG1)] [("g", auxG2)] "g" auxG1 auxG2
    (by decide) (by decide) (by decide)).2

/-- Half-angle value used to bound the arctan normalization of claim C9. -/
theorem tan_pi_div_eight_eq : Real.tan (Real.pi / 8) = Real.sqrt 2 - 1 := by
  have hpi := Real.pi_pos
  set t := Real.tan (Real.pi / 8) with ht
  have h8pos : 0 < Real.pi / 8 := by linarith
  have h8lt : Real.pi / 8 < Real.pi / 2 := by linarith
  have htpos : 0 < t := Real.tan_pos_of_pos_of_lt_pi_div_two h8pos h8lt
  have hdouble : Real.tan (2 * (Real.pi / 8)) = 2 * t / (1 - t ^ 2) := Real.tan_two_mul
  rw [show (2 : ℝ) * (Real.pi / 8) = Real.pi / 4 by ring, Real.tan_pi_div_four] at hdouble
  have hden : 1 - t ^ 2 ≠ 0 := by
    intro h0
    rw [h0, div_zero] at hdouble
    exact one_ne_zero hdouble
  have hq : t ^ 2 + 2 * t - 1 = 0 := by
    field_simp at hdouble
    nlinarith [hdouble]
  have hsq : (t + 1) ^ 2 = 2 := by nlinarith [hq]
  have hsqrt : Real.sqrt 2 = t + 1 := by
    rw [← hsq]
    exact Real.sqrt_sq (by linarith)
  linarith [hsqrt]

/-- Bracketing of `arctan (7/4)` between `pi/4` and `3*pi/8`, used by the C9
theorems. -/
theorem arctan_seven_quarters_bounds :
    Real.pi / 4 < Real.arctan (7 / 4) ∧ Real.arctan (7 / 4) < 3 * Real.pi / 8 := by
  have hpi := Real.pi_pos
  constructor
  · rw [← Real.arctan_one]
    exact Real.arctan_strictMono (by norm_num)
  · have h1 : Real.tan (3 * Real.pi / 8) = (Real.sqrt 2 - 1)⁻¹ := by
      rw [show 3 * Real.pi / 8 = Real.pi / 2 - Real.pi / 8 by ring, Real.tan_pi_div_two_sub,
        tan_pi_div_eight_eq]
    have hs2 : Real.sqrt 2 ^ 2 = 2 := Real.sq_sqrt (by norm_num)
    have hs2nn : (0 : ℝ) ≤ Real.sqrt 2 := Real.sqrt_nonneg 2
    have hlt : Real.sqrt 2 < 11 / 7 := by
      nlinarith [hs2, hs2nn, sq_nonneg (Real.sqrt 2 - 11 / 7)]
    have hgt1 : (1 : ℝ) < Real.sqrt 2 := by nlinarith [hs2, hs2nn]
    have hpos : (0 : ℝ) < Real.sqrt 2 - 1 := by linarith
    have hbig : (7 : ℝ) / 4 < (Real.sqrt 2 - 1)⁻¹ := by
      rw [show (Real.sqrt 2 - 1)⁻¹ = 1 / (Real.sqrt 2 - 1) from (one_div _).symm,
        lt_div_iff₀ hpos]
      nlinarith [hlt]
    calc Real.arctan (7 / 4) < Real.arctan (Real.tan (3 * Real.pi / 8)) := by
          rw [h1]; exact Real.arctan_strictMono hbig
      _ = 3 * Real.pi / 8 := Real.arctan_tan (by linarith) (by linarith)

/-- The spec's worked example evaluates to the raw weighted score `7/4`. -/
theorem compositeRawScore_example : compositeRawScore exampleEvidence = 7 / 4 := by
  simp [compositeRawScore, presentEvidence, exampleEvidence, evidenceOne, evidenceTwo]
  norm_num

/-- Claim C9, counterexample.  On the spec's worked example the raw weighted
score is exactly `7/4`, but the normalized score `atan(7/4) * 2 / pi` is
strictly below `3/4`, which itself sits more than `0.05` below the claimed
value `0.810`: the `about 0.810` figure of the claim is arithmetically wrong
for the stated formula. -/
theorem composite_score_normalization_mismatch :
    compositeRawScore exampleEvidence = 7 / 4
  ∧ normalizedScore exampleEvidence < 3 / 4
  ∧ (3 / 4 : ℝ) + 1 / 20 < 81 / 100 := by
  refine ⟨compositeRawScore_example, ?_, by norm_num⟩
  have hpi := Real.pi_pos
  have hub := arctan_seven_quarters_bounds.2
  unfold normalizedScore
  rw [compositeRawScore_example]
  rw [show (((7 : ℚ) / 4 : ℚ) : ℝ) = 7 / 4 by norm_num]
  rw [div_lt_iff₀ hpi]
  nlinarith [hub]

/-- Claim C9, amended.  The composite raw score is the sample-size-weighted
average of log-odds ratios over the entries with both fields present (the
worked example yields `7/4`), entries missing either field are excluded
without error, and the normalized score `atan(7/4) * 2 / pi` lies strictly
between `1/2` and `3/4` (numerically about `0.67`), not near `0.810`. -/
theorem composite_score_formula :
    compositeRawScore exampleEvidence = 7 / 4
  ∧ (1 / 2 : ℝ) < normalizedScore exampleEvidence
  ∧ normalizedScore exampleEvidence < 3 / 4
  ∧ ∀ (e : Evidence) (l : List Evidence),
      e.log_odds_ratio = none ∨ e.total_sample_size = none →
      compositeRawScore (e :: l) = compositeRawScore l := by
  have hpi := Real.pi_pos
  have hlb := arctan_seven_quarters_bounds.1
  have hub := arctan_seven_quarters_bounds.2
  refine ⟨compositeRawScore_example, ?_, ?_, ?_⟩
  · unfold normalizedScore
    rw [compositeRawScore_example]
    rw [show (((7 : ℚ) / 4 : ℚ) : ℝ) = 7 / 4 by norm_num]
    rw [lt_div_iff₀ hpi]
    nlinarith [hlb]
  · unfold normalizedScore
    rw [compositeRawScore_example]
    rw [show (((7 : ℚ) / 4 : ℚ) : ℝ) = 7 / 4 by norm_num]
    rw [div_lt_iff₀ hpi]
    nlinarith [hub]
  · intro e l h
    have hfe : (match e.log_odds_ratio, e.total_sample_size with
        | some lor, some n => some (lor, (n : ℚ))
        | _, _ => none) = (none : Option (ℚ × ℚ)) := by
      rcases h with h | h
      · rw [h]
      · rw [h]
        cases e.log_odds_ratio <;> rfl
    have hpres : presentEvidence (e :: l) = presentEvidence l := by
      unfold presentEvidence
      rw [List.filterMap_cons, hfe]
    unfold compositeRawScore
    rw [hpres]

/-- Claim C9, witness: an entry missing its sample size leaves the score of
the worked example unchanged. -/
theorem composite_score_formula_witness :
    compositeRawScore (evidenceNoSize :: exampleEvidence) = compositeRawScore exampleEvidence :=
  composite_score_formula.2.2.2 evidenceNoSize exampleEvidence (Or.inr rfl)
